import Mathlib

/-!
Shallow embedding of the Tetris repository (src/src/app.rs, src/src/read_write.rs,
src/src/main.rs) and proofs about its piece/board simulation core.

Modelling conventions:
* `f64` coordinates are modelled as `ℚ`.  Every coordinate the program manipulates
  outside of `Piece::rotate` is an exact small dyadic value (multiples of 10, with
  centres on multiples of 2.5), on which `f64` arithmetic (`+ 10.0`, `- 10.0`,
  sums, division by the component count, comparisons and `==`) is exact, so the
  rational model agrees with the machine semantics there.  In `Piece::rotate` the
  source multiplies by `FRAC_PI_2.cos()` and `FRAC_PI_2.sin()`; the model uses the
  exact values `cos (π/2) = 0` and `sin (π/2) = 1` (the `f64` cosine is a residue
  of magnitude ≈ 6.1e-17 instead of exactly 0; see the doc comment on
  `Piece.rotate`).
* `u64` is modelled as `ℕ` with wrap-around `% 2^64` where the program adds.
* `Vec<f64>` fields that always hold exactly two entries (`center`) are modelled
  as `ℚ × ℚ`.
* Fallible Rust functions in this file only ever return `Ok`, except the file
  reader, which is modelled with `Option`.
* The random generator of `next_piece` is injected as an explicit `fresh : Piece`
  argument standing for the freshly generated piece.
-/

set_option maxRecDepth 16000

set_option maxHeartbeats 1000000

namespace Tetris

/-- `2^64`, the modulus of the `u64` score/high-score arithmetic. -/
def W : ℕ := 2 ^ 64

/-- The `ratatui` colours used by the program (cosmetic only). -/
inductive Color where
  | white
  | cyan
  | yellow
  | red
  | blue
  | magenta
  | green
  | black
deriving DecidableEq, Repr

/-- `SimplePiece` (a Block): axis-aligned cell with position, size and centre.
Mirrors `struct SimplePiece` in src/src/app.rs. -/
structure SimplePiece where
  x : ℚ
  y : ℚ
  width : ℚ
  height : ℚ
  center : ℚ × ℚ
deriving DecidableEq, Repr

/-- `SimplePiece::new(x, y)`: width and height are fixed to 10, the centre is the
cell midpoint. -/
def SimplePiece.new (x y : ℚ) : SimplePiece :=
  { x := x, y := y, width := 10, height := 10, center := (x + 5, y + 5) }

/-- `SimplePiece::is_equal`: structural equality of `x, y, width, height`
(the collision predicate).  The block centres and colours play no role. -/
def SimplePiece.is_equal (a b : SimplePiece) : Bool :=
  decide (a.x = b.x) && decide (a.y = b.y) &&
    decide (a.width = b.width) && decide (a.height = b.height)

/-- `struct Piece` in src/src/app.rs: a colour, a list of Blocks and the cached
`min_y`/`max_y`/`center` fields. -/
structure Piece where
  color : Color
  components : List SimplePiece
  min_y : ℚ
  max_y : ℚ
  center : ℚ × ℚ
deriving DecidableEq, Repr

/-- `get_center`: componentwise mean of the Blocks' `center` fields.
On the empty list the source divides by zero in `f64` (never reached by the
program); the rational model returns `(0, 0)` there. -/
def get_center (cmps : List SimplePiece) : ℚ × ℚ :=
  ((cmps.map (fun c => c.center.1)).sum / (cmps.length : ℚ),
   (cmps.map (fun c => c.center.2)).sum / (cmps.length : ℚ))

/-- The fold body of `get_min_y`: keep the smaller `y`. -/
def min_y_fold (cmps : List SimplePiece) (m : ℚ) : ℚ :=
  cmps.foldl (fun m c => if c.y < m then c.y else m) m

/-- The fold body of `get_max_y`: keep the larger `y`. -/
def max_y_fold (cmps : List SimplePiece) (m : ℚ) : ℚ :=
  cmps.foldl (fun m c => if m < c.y then c.y else m) m

/-- The fold body of `get_min_x`: keep the smaller `x`. -/
def min_x_fold (cmps : List SimplePiece) (m : ℚ) : ℚ :=
  cmps.foldl (fun m c => if c.x < m then c.x else m) m

/-- `get_min_y`: minimum Block `y`.  The source starts from `f64::INFINITY`; the
model peels the first element instead, which agrees on every non-empty list (the
only lists the program applies it to).  The empty list maps to 0. -/
def get_min_y : List SimplePiece → ℚ
  | [] => 0
  | c :: cmps => min_y_fold cmps c.y

/-- `get_max_y`: maximum Block `y`.  Source starts from `-f64::INFINITY`; same
modelling convention as `get_min_y`. -/
def get_max_y : List SimplePiece → ℚ
  | [] => 0
  | c :: cmps => max_y_fold cmps c.y

/-- `get_min_x`: minimum Block `x`.  Same modelling convention as `get_min_y`. -/
def get_min_x : List SimplePiece → ℚ
  | [] => 0
  | c :: cmps => min_x_fold cmps c.x

/-- `f64::round`: nearest integer, ties away from zero. -/
def round_away (q : ℚ) : ℤ :=
  if 0 ≤ q then ⌊q + 1 / 2⌋ else -⌊-q + 1 / 2⌋

/-- `round_to_tenths(num)`: `(num / 10 - (num.round() as i64 / 10) as f64) * 10`,
with the Rust `i64` division truncating toward zero (`Int.tdiv`). -/
def round_to_tenths (num : ℚ) : ℚ :=
  let int : ℤ := round_away num
  let diff : ℚ := num / 10 - ((Int.tdiv int 10 : ℤ) : ℚ)
  diff * 10

/-- `Piece::set_center`: recompute the cached centroid from the Blocks'
centres. -/
def Piece.set_center (p : Piece) : Piece :=
  { p with center := get_center p.components }

/-- `Piece::move_right`: no-op when some Block has `x >= 50`, otherwise shift
every Block (and its centre) by `+10` in `x` and recompute the centroid. -/
def Piece.move_right (p : Piece) : Piece :=
  if p.components.any (fun c => decide (50 ≤ c.x)) then p
  else
    ({ p with
        components := p.components.map fun (c : SimplePiece) =>
          { c with x := c.x + 10, center := (c.center.1 + 10, c.center.2) } }).set_center

/-- `Piece::move_left`: no-op when some Block has `x <= -60`, otherwise shift
every Block (and its centre) by `-10` in `x` and recompute the centroid. -/
def Piece.move_left (p : Piece) : Piece :=
  if p.components.any (fun c => decide (c.x ≤ -60)) then p
  else
    ({ p with
        components := p.components.map fun (c : SimplePiece) =>
          { c with x := c.x - 10, center := (c.center.1 - 10, c.center.2) } }).set_center

/-- `Piece::move_down`: no-op when some Block has `y <= -90`, otherwise shift
every Block (and its centre) by `-10` in `y`, recompute `min_y`/`max_y` and the
centroid. -/
def Piece.move_down (p : Piece) : Piece :=
  if p.components.any (fun c => decide (c.y ≤ -90)) then p
  else
    let comps := p.components.map fun (c : SimplePiece) =>
      { c with y := c.y - 10, center := (c.center.1, c.center.2 - 10) }
    ({ p with
        components := comps,
        min_y := get_min_y comps,
        max_y := get_max_y comps }).set_center

/-- The rotation loop body of `Piece::rotate`: shift the Block by the cached
centroid, apply the 2D rotation matrix for the angle `π/2`, shift back.  The
source multiplies by `FRAC_PI_2.cos()` and `FRAC_PI_2.sin()`; the model uses
the exact values 0 and 1 (in `f64` the cosine is ≈ 6.123e-17 instead of 0,
which perturbs every rotated coordinate by residues below 1e-13 and can only
move the result further away from any exact equality of positions). -/
def rotate_spin (x_shift y_shift : ℚ) (c : SimplePiece) : SimplePiece :=
  { c with x := -(c.y - y_shift) + x_shift, y := (c.x - x_shift) + y_shift }

/-- The trailing snap loop of `Piece::rotate`: subtract the two
`round_to_tenths` corrections from every Block and from its centre. -/
def rotate_snap (x_diff y_diff : ℚ) (c : SimplePiece) : SimplePiece :=
  { c with
      x := c.x - x_diff, y := c.y - y_diff,
      center := (c.center.1 - x_diff, c.center.2 - y_diff) }

/-- `Piece::rotate`: rotate every Block about the cached centroid
(`rotate_spin`), then re-snap the piece onto the grid by subtracting the
`round_to_tenths` corrections of the new minimum `y` and `x` from every Block
and its centre (`rotate_snap`).  The source assigns `min_y := min1`,
`max_y := max1` and then subtracts `y_diff` from both, which the model fuses
into one assignment; `self.set_center()` runs before the snap subtraction, so
the cached centroid is the mean of the pre-subtraction Block centres. -/
def Piece.rotate (p : Piece) : Piece :=
  let comps1 := p.components.map (rotate_spin p.center.1 p.center.2)
  let ctr := get_center comps1
  let min1 := get_min_y comps1
  let max1 := get_max_y comps1
  let y_diff := round_to_tenths min1
  let x_diff := round_to_tenths (get_min_x comps1)
  { p with
      components := comps1.map (rotate_snap x_diff y_diff), center := ctr,
      min_y := min1 - y_diff, max_y := max1 - y_diff }

/-- `Piece::is_blocked(block)`: some Block of this piece `is_equal` to the given
Block. -/
def Piece.is_blocked (p : Piece) (block : SimplePiece) : Bool :=
  p.components.any fun c => c.is_equal block

/-- `Piece::out_of_bounds()`: some Block lies outside `x ∈ [-60, 50]`,
`y ∈ [-90, 80]`. -/
def Piece.out_of_bounds (p : Piece) : Bool :=
  p.components.any fun c =>
    decide (c.y < -90) || decide (80 < c.y) || decide (c.x < -60) || decide (50 < c.x)

/-- `Piece::long()`. -/
def Piece.long : Piece :=
  { color := Color.white
    components :=
      [SimplePiece.new 0 90, SimplePiece.new 0 80,
       SimplePiece.new 0 70, SimplePiece.new 0 60]
    min_y := 60
    max_y := 90
    center := (0, 75) }

/-- `Piece::square()`. -/
def Piece.square : Piece :=
  { color := Color.white
    components :=
      [SimplePiece.new 0 90, SimplePiece.new 10 90,
       SimplePiece.new 0 80, SimplePiece.new 10 80]
    min_y := 80
    max_y := 90
    center := (0, 85) }

/-- `Piece::t_piece()`. -/
def Piece.t_piece : Piece :=
  { color := Color.white
    components :=
      [SimplePiece.new 0 90, SimplePiece.new (-10) 90,
       SimplePiece.new 10 90, SimplePiece.new 0 80]
    min_y := 80
    max_y := 90
    center := (0, 85) }

/-- `Piece::l_piece()`. -/
def Piece.l_piece : Piece :=
  { color := Color.white
    components :=
      [SimplePiece.new 0 90, SimplePiece.new 10 90,
       SimplePiece.new 0 80, SimplePiece.new 0 70]
    min_y := 70
    max_y := 90
    center := (0, 80) }

/-- `Piece::whole_line(y)`: the full-width 12-column reference line at row `y`,
used only as the row-completion template. -/
def Piece.whole_line (y : ℚ) : Piece :=
  { color := Color.white
    components :=
      [SimplePiece.new (-60) y, SimplePiece.new (-50) y, SimplePiece.new (-40) y,
       SimplePiece.new (-30) y, SimplePiece.new (-20) y, SimplePiece.new (-10) y,
       SimplePiece.new 0 y, SimplePiece.new 10 y, SimplePiece.new 20 y,
       SimplePiece.new 30 y, SimplePiece.new 40 y, SimplePiece.new 50 y]
    min_y := y
    max_y := y
    center := (0, y) }

/-- `struct App` in src/src/app.rs. -/
structure App where
  score : ℕ
  highscore : ℕ
  exit : Bool
  on_pause : Bool
  dead : Bool
  current_piece : Piece
  pieces : List Piece
deriving DecidableEq, Repr

/-- `App::new()` (the fresh game state; `current_piece` is `Piece::long()`). -/
def App.new : App :=
  { score := 0, highscore := 0, exit := false, on_pause := false, dead := false,
    current_piece := Piece.long, pieces := [] }

/-- The collision scan every intent performs: some Block of `p` is blocked by
some settled piece of `ps`. -/
def collides (p : Piece) (ps : List Piece) : Bool :=
  p.components.any fun cmp => ps.any fun piece => piece.is_blocked cmp

/-- `App::pause()`: toggle the `on_pause` flag (the source branches on the flag
and assigns the opposite value in both branches). -/
def App.pause (a : App) : App :=
  if a.on_pause then { a with on_pause := false } else { a with on_pause := true }

/-- `App::restart(fresh)`: only acts when `dead`; persists and re-reads the
high-score (the file round-trip returns the written value, see
`read_save_round_trip`), zeroes the score, clears flags and settled pieces and
spawns `fresh`, the piece produced by `next_piece` (randomness injected). -/
def App.restart (fresh : Piece) (a : App) : App :=
  if a.dead then
    { a with
        highscore := a.highscore, score := 0, on_pause := false, dead := false,
        pieces := [], current_piece := fresh }
  else a

/-- `App::move_current_down()`: trial-move a clone down; commit unless the clone
collides with a settled Block.  (No `out_of_bounds` test here, unlike the other
three intents.) -/
def App.move_current_down (a : App) : App :=
  let cur := a.current_piece.move_down
  if collides cur a.pieces then a else { a with current_piece := cur }

/-- `App::move_current_left()`: trial-move a clone left; commit unless the clone
collides with a settled Block or is out of bounds. -/
def App.move_current_left (a : App) : App :=
  let cur := a.current_piece.move_left
  if collides cur a.pieces || cur.out_of_bounds then a else { a with current_piece := cur }

/-- `App::move_current_right()`: trial-move a clone right; commit unless the
clone collides with a settled Block or is out of bounds. -/
def App.move_current_right (a : App) : App :=
  let cur := a.current_piece.move_right
  if collides cur a.pieces || cur.out_of_bounds then a else { a with current_piece := cur }

/-- `App::rotate_current()`: trial-rotate a clone; commit unless the clone
collides with a settled Block or is out of bounds. -/
def App.rotate_current (a : App) : App :=
  let cur := a.current_piece.rotate
  if collides cur a.pieces || cur.out_of_bounds then a else { a with current_piece := cur }

/-- `App::current_piece_at_bottom()`: a clone moved one step down collides with
a settled Block, or the cached `min_y` of the current piece equals `-90`. -/
def App.current_piece_at_bottom (a : App) : Bool :=
  collides a.current_piece.move_down a.pieces || decide (a.current_piece.min_y = -90)

/-- `App::handle_piece()`: first `move_current_down`, then, if the (possibly
moved) current piece is at the bottom, push it onto the settled collection and
replace it by `fresh` (the piece `next_piece` generates; randomness injected). -/
def App.handle_piece (fresh : Piece) (a : App) : App :=
  let a1 := a.move_current_down
  if a1.current_piece_at_bottom then
    { a1 with pieces := a1.pieces ++ [a1.current_piece], current_piece := fresh }
  else a1

/-- `App::handle_key_event` key codes. -/
inductive KeyCode where
  | char_q
  | esc
  | enter
  | right
  | left
  | down
  | up
  | other
deriving DecidableEq, Repr

/-- `App::handle_key_event`: dispatch on the key code.  `fresh` is the piece
`next_piece` would generate inside `restart` (randomness injected). -/
def App.handle_key_event (fresh : Piece) (k : KeyCode) (a : App) : App :=
  match k with
  | KeyCode.char_q => { a with exit := true }
  | KeyCode.esc => a.pause
  | KeyCode.enter => a.restart fresh
  | KeyCode.right => a.move_current_right
  | KeyCode.left => a.move_current_left
  | KeyCode.down => a.move_current_down
  | KeyCode.up => a.rotate_current
  | KeyCode.other => a

/-- The inner removal loop of `App::delete_row`: iterate over an enumerated
clone of the original components (`todo`, with running index `i`), removing the
element at `i - count` from the live list `cur` whenever the clone's element has
`y = row`, where `count` counts the removals so far. -/
def delete_row_go (row : ℚ) : List SimplePiece → ℕ → ℕ → List SimplePiece → List SimplePiece
  | cur, _, _, [] => cur
  | cur, count, i, c :: todo =>
      if c.y = row then delete_row_go row (cur.eraseIdx (i - count)) (count + 1) (i + 1) todo
      else delete_row_go row cur count (i + 1) todo

/-- The effect of `App::delete_row` on one settled piece: skip it when the
cached bounds exclude `row`, otherwise run the removal loop.  The cached
`min_y`/`max_y` are not recomputed. -/
def delete_row_piece (row : ℚ) (p : Piece) : Piece :=
  if decide (p.max_y < row) || decide (p.min_y > row) then p
  else { p with components := delete_row_go row p.components 0 0 p.components }

/-- `App::delete_row(row)`: apply the removal to every settled piece. -/
def App.delete_row (a : App) (row : ℚ) : App :=
  { a with pieces := a.pieces.map (delete_row_piece row) }

/-- The row-completion test inside `App::row_clear`: every Block of the
`whole_line` template at `y` is blocked by some settled piece. -/
def rowComplete (pieces : List Piece) (y : ℚ) : Bool :=
  (Piece.whole_line y).components.all fun cmp => pieces.any fun piece => piece.is_blocked cmp

/-- The loop variable range of `App::row_clear`: `for i in -9..8`. -/
def rowClearCandidates : List ℤ :=
  [-9, -8, -7, -6, -5, -4, -3, -2, -1, 0, 1, 2, 3, 4, 5, 6, 7]

/-- One iteration of the `App::row_clear` loop at index `i`: if the row `10 * i`
is complete, delete it and add 1000 to the score (`u64` wrap-around). -/
def rowClearStep (st : App) (i : ℤ) : App :=
  if rowComplete st.pieces ((10 * i : ℤ) : ℚ) then
    let st' := st.delete_row ((10 * i : ℤ) : ℚ)
    { st' with score := (st'.score + 1000) % W }
  else st

/-- `App::row_clear()`: scan the candidate rows `10 * i`, `i ∈ -9..8`, in
order. -/
def App.row_clear (a : App) : App :=
  rowClearCandidates.foldl rowClearStep a

/-- `u64::to_le_bytes`: the 8 little-endian bytes of `n`. -/
def u64_le_bytes (n : ℕ) : List ℕ :=
  (List.range 8).map fun i => n / 256 ^ i % 256

/-- `u64::from_le_bytes` on a byte list. -/
def le_bytes_to_u64 (bs : List ℕ) : ℕ :=
  bs.foldr (fun b acc => b + 256 * acc) 0

/-- `save(path, number)` in src/src/read_write.rs: `File::create` truncates, so
the resulting file contents are exactly the 8 little-endian bytes of `number`,
whatever the previous contents were. -/
def save (_file : List ℕ) (number : ℕ) : List ℕ :=
  u64_le_bytes number

/-- `read(path)` in src/src/read_write.rs: `read_exact` on an 8-byte buffer
fails (modelled as `none`) when the file holds fewer than 8 bytes, otherwise
decodes the first 8 bytes as a little-endian `u64`. -/
def read (file : List ℕ) : Option ℕ :=
  if 8 ≤ file.length then some (le_bytes_to_u64 (file.take 8)) else none

/-- The moves of claim C3's move sequences. -/
inductive Move where
  | left
  | right
  | down
deriving DecidableEq, Repr

/-- Apply one `Piece` move. -/
def applyMove (m : Move) (p : Piece) : Piece :=
  match m with
  | Move.left => p.move_left
  | Move.right => p.move_right
  | Move.down => p.move_down

/-- Apply a sequence of `Piece` moves, first element first. -/
def applyMoves (ms : List Move) (p : Piece) : Piece :=
  ms.foldl (fun p m => applyMove m p) p

/-- Every Block of the piece lies inside the hard walls and above the floor:
`x ∈ [-60, 50]`, `y ≥ -90`. -/
def InHardBounds (p : Piece) : Prop :=
  ∀ c ∈ p.components, -60 ≤ c.x ∧ c.x ≤ 50 ∧ -90 ≤ c.y

/-- Every Block of the piece sits on the 10-unit grid lattice. -/
def OnLattice (p : Piece) : Prop :=
  ∀ c ∈ p.components, (∃ a : ℤ, c.x = 10 * a) ∧ (∃ b : ℤ, c.y = 10 * b)

/-- The cached bounds are exactly the extremes of the Blocks' `y`. -/
def BoundsExact (p : Piece) : Prop :=
  p.min_y = get_min_y p.components ∧ p.max_y = get_max_y p.components

/-- The cached bounds enclose every Block's `y` (the invariant the program
actually maintains; weaker than `BoundsExact` after `delete_row`). -/
def OuterBounds (p : Piece) : Prop :=
  ∀ c ∈ p.components, p.min_y ≤ c.y ∧ c.y ≤ p.max_y

/-- Every Block of the piece has the fixed cell size `10 × 10`. -/
def UnitBlocks (p : Piece) : Prop :=
  ∀ c ∈ p.components, c.width = 10 ∧ c.height = 10

/-- Characterisation helper: the loop indexes of `row_clear` whose row is
complete with respect to the given settled pieces. -/
def clearedRows (pieces : List Piece) (cands : List ℤ) : List ℤ :=
  cands.filter fun i => rowComplete pieces ((10 * i : ℤ) : ℚ)

/-- Characterisation helper: remove from a piece every Block lying on one of
the rows `10 * i`, `i ∈ rows`. -/
def dropRows (rows : List ℤ) (p : Piece) : Piece :=
  { p with
      components := p.components.filter fun c => !rows.any fun i => decide (c.y = ((10 * i : ℤ) : ℚ)) }

/-- Fixture: a single settled Block at the origin (all fields literal). -/
def plainPiece : Piece :=
  { color := Color.white
    components := [⟨0, 0, 10, 10, (5, 5)⟩]
    min_y := 0
    max_y := 0
    center := (5, 5) }

/-- Fixture: a game-over state. -/
def deadApp : App :=
  { score := 3, highscore := 7, exit := false, on_pause := false, dead := true,
    current_piece := plainPiece, pieces := [] }

/-- Fixture: a vertical I-piece whose lowest Block rests at `y = -80`, one grid
step above the floor. -/
def lowLong : Piece :=
  { color := Color.white
    components :=
      [⟨0, -80, 10, 10, (5, -75)⟩, ⟨0, -70, 10, 10, (5, -65)⟩,
       ⟨0, -60, 10, 10, (5, -55)⟩, ⟨0, -50, 10, 10, (5, -45)⟩]
    min_y := -80
    max_y := -50
    center := (5, -60) }

/-- Fixture: `lowLong` moved one step down (its lowest Block on the floor). -/
def movedLong : Piece :=
  { color := Color.white
    components :=
      [⟨0, -90, 10, 10, (5, -85)⟩, ⟨0, -80, 10, 10, (5, -75)⟩,
       ⟨0, -70, 10, 10, (5, -65)⟩, ⟨0, -60, 10, 10, (5, -55)⟩]
    min_y := -90
    max_y := -60
    center := (5, -70) }

/-- Fixture: a board whose active piece is `lowLong` and whose settled
collection is empty. -/
def appLow : App :=
  { score := 0, highscore := 0, exit := false, on_pause := false, dead := false,
    current_piece := lowLong, pieces := [] }

/-- Fixture: a one-Block piece at `x = -55`, inside `[-60, 50]` but off the
10-unit lattice. -/
def badPiece : Piece :=
  { color := Color.white
    components := [⟨-55, 0, 10, 10, (-50, 5)⟩]
    min_y := 0
    max_y := 0
    center := (-50, 5) }

/-- Fixture: a one-Block piece at `x = 60`, beyond the right wall. -/
def oobPiece : Piece :=
  { color := Color.white
    components := [⟨60, 0, 10, 10, (65, 5)⟩]
    min_y := 0
    max_y := 0
    center := (65, 5) }

/-- Fixture: a board whose active piece is `oobPiece` and whose settled
collection is empty. -/
def appOob : App :=
  { score := 0, highscore := 0, exit := false, on_pause := false, dead := false,
    current_piece := oobPiece, pieces := [] }

/-- Fixture: a two-Block piece with correct cached bounds, about to lose its
lower Block to a row deletion. -/
def stalePiece : Piece :=
  { color := Color.white
    components := [⟨0, -40, 10, 10, (5, -35)⟩, ⟨0, -30, 10, 10, (5, -25)⟩]
    min_y := -40
    max_y := -30
    center := (5, -30) }

/-- Fixture: a board with one settled piece filling the whole row `y = -40`. -/
def appFull : App :=
  { score := 0, highscore := 0, exit := false, on_pause := false, dead := false,
    current_piece := plainPiece, pieces := [Piece.whole_line (-40)] }

/-- Fixture: a board with one settled piece filling the whole row `y = 80` —
above the range `row_clear` scans. -/
def appTop : App :=
  { score := 0, highscore := 0, exit := false, on_pause := false, dead := false,
    current_piece := plainPiece, pieces := [Piece.whole_line 80] }

/-- Fixture: the spawn I-piece after `set_center` (the centroid sync
`next_piece` performs). -/
def longR0 : Piece :=
  { color := Color.white
    components :=
      [⟨0, 90, 10, 10, (5, 95)⟩, ⟨0, 80, 10, 10, (5, 85)⟩,
       ⟨0, 70, 10, 10, (5, 75)⟩, ⟨0, 60, 10, 10, (5, 65)⟩]
    min_y := 60
    max_y := 90
    center := (5, 80) }

/-- Fixture: `longR0` after one `rotate`. -/
def longR1 : Piece :=
  { color := Color.white
    components :=
      [⟨0, 70, 10, 10, (10, 90)⟩, ⟨10, 70, 10, 10, (10, 80)⟩,
       ⟨20, 70, 10, 10, (10, 70)⟩, ⟨30, 70, 10, 10, (10, 60)⟩]
    min_y := 70
    max_y := 70
    center := (5, 80) }

/-- Fixture: `longR0` after two `rotate`s. -/
def longR2 : Piece :=
  { color := Color.white
    components :=
      [⟨10, 70, 10, 10, (5, 85)⟩, ⟨10, 80, 10, 10, (5, 75)⟩,
       ⟨10, 90, 10, 10, (5, 65)⟩, ⟨10, 100, 10, 10, (5, 55)⟩]
    min_y := 70
    max_y := 100
    center := (10, 75) }

/-- Fixture: `longR0` after three `rotate`s. -/
def longR3 : Piece :=
  { color := Color.white
    components :=
      [⟨20, 70, 10, 10, (10, 80)⟩, ⟨10, 70, 10, 10, (10, 70)⟩,
       ⟨0, 70, 10, 10, (10, 60)⟩, ⟨-10, 70, 10, 10, (10, 50)⟩]
    min_y := 70
    max_y := 70
    center := (5, 70) }

/-- Fixture: `longR0` after four `rotate`s — the original shape translated one
grid step down. -/
def longR4 : Piece :=
  { color := Color.white
    components :=
      [⟨0, 80, 10, 10, (5, 75)⟩, ⟨0, 70, 10, 10, (5, 65)⟩,
       ⟨0, 60, 10, 10, (5, 55)⟩, ⟨0, 50, 10, 10, (5, 45)⟩]
    min_y := 50
    max_y := 80
    center := (10, 65) }

/-! ## Helper lemmas -/

instance (p : Piece) : Decidable (InHardBounds p) := by
  unfold InHardBounds; infer_instance

instance (p : Piece) : Decidable (BoundsExact p) := by
  unfold BoundsExact; infer_instance

instance (p : Piece) : Decidable (OuterBounds p) := by
  unfold OuterBounds; infer_instance

instance (p : Piece) : Decidable (UnitBlocks p) := by
  unfold UnitBlocks; infer_instance

/-- No collision is possible against an empty settled collection. -/
theorem collides_nil (p : Piece) : collides p [] = false := by
  simp [collides]

/-- Peeling one byte off the little-endian decoding of `k + 1` bytes. -/
theorem le_bytes_to_u64_cons (b : ℕ) (bs : List ℕ) :
    le_bytes_to_u64 (b :: bs) = b + 256 * le_bytes_to_u64 bs := rfl

/-- Decoding the first `k` little-endian bytes of `n` recovers `n % 256 ^ k`. -/
theorem le_bytes_round (k : ℕ) : ∀ n : ℕ,
    le_bytes_to_u64 ((List.range k).map fun i => n / 256 ^ i % 256) = n % 256 ^ k := by
  induction k with
  | zero => intro n; simp [le_bytes_to_u64, Nat.mod_one]
  | succ k ih =>
      intro n
      rw [List.range_succ_eq_map, List.map_cons, List.map_map, le_bytes_to_u64_cons]
      have hmap :
          ((List.range k).map ((fun i => n / 256 ^ i % 256) ∘ Nat.succ)) =
            (List.range k).map fun i => (n / 256) / 256 ^ i % 256 := by
        refine List.map_congr_left fun i _ => ?_
        have : n / 256 ^ (i + 1) = n / 256 / 256 ^ i := by
          rw [Nat.div_div_eq_div_mul, ← pow_succ']
        simp [Function.comp, this]
      rw [hmap, ih (n / 256)]
      have : (256 : ℕ) ^ (k + 1) = 256 * 256 ^ k := by rw [pow_succ']
      rw [this, Nat.mod_mul]
      simp [pow_zero]

/-- The result of the `delete_row` removal loop is contained in the list it
started from. -/
theorem delete_row_go_subset (row : ℚ) :
    ∀ (todo cur : List SimplePiece) (count i : ℕ), delete_row_go row cur count i todo ⊆ cur := by
  intro todo
  induction todo with
  | nil => intro cur count i; exact fun c hc => hc
  | cons c todo ih =>
      intro cur count i
      unfold delete_row_go
      by_cases h : c.y = row
      · simp only [h, if_pos rfl]
        exact fun d hd => (cur.eraseIdx_subset _) (ih _ _ _ hd)
      · simp only [if_neg h]
        exact ih _ _ _

/-- Blocks of `delete_row_piece row p` are Blocks of `p`. -/
theorem delete_row_piece_subset (row : ℚ) (p : Piece) :
    (delete_row_piece row p).components ⊆ p.components := by
  unfold delete_row_piece
  split
  · exact fun c hc => hc
  · exact delete_row_go_subset row p.components p.components 0 0

/-! ## Claim C7 -/

/-- Claim C7, counterexample: in a game-over state (`dead = true`), the Esc
intent is not a no-op — it flips `on_pause`, because `handle_key_event`
dispatches `Esc` to `pause()` without checking `dead`. -/
theorem esc_not_noop_when_dead :
    deadApp.dead = true ∧ deadApp.handle_key_event plainPiece KeyCode.esc ≠ deadApp := by
  decide

/-- Claim C7, amended: in every state — game-over included — the Esc intent
toggles the `on_pause` flag and changes nothing else. -/
theorem esc_toggles_pause (fresh : Piece) (a : App) :
    a.handle_key_event fresh KeyCode.esc = { a with on_pause := !a.on_pause } := by
  cases h : a.on_pause <;> simp [App.handle_key_event, App.pause, h]

/-! ## Claim C8 -/

/-- Claim C8: for every `u64` value `n`, `save` replaces the file contents with
exactly the 8 little-endian bytes of `n`, and a subsequent `read` returns
`some n`. -/
theorem save_read_round_trip (file : List ℕ) (n : ℕ) (h : n < 2 ^ 64) :
    save file n = u64_le_bytes n ∧ (u64_le_bytes n).length = 8 ∧
      read (save file n) = some n := by
  have h8 : (u64_le_bytes n).length = 8 := by simp [u64_le_bytes]
  refine ⟨rfl, h8, ?_⟩
  have htake : (u64_le_bytes n).take 8 = u64_le_bytes n :=
    List.take_of_length_le (le_of_eq h8)
  rw [read, save, if_pos (le_of_eq h8.symm), htake, u64_le_bytes, le_bytes_round]
  have h256 : (256 : ℕ) ^ 8 = 2 ^ 64 := by norm_num
  rw [h256, Nat.mod_eq_of_lt h]

/-- Claim C8, witness: the round trip at `n = 2^64 - 1` over an arbitrary
previous file content. -/
theorem save_read_round_trip_witness :
    (2 ^ 64 - 1 : ℕ) < 2 ^ 64 ∧ read (save [3, 1, 4] (2 ^ 64 - 1)) = some (2 ^ 64 - 1) :=
  ⟨by norm_num, (save_read_round_trip [3, 1, 4] (2 ^ 64 - 1) (by norm_num)).2.2⟩

/-! ## Claim C9 -/

/-- Claim C9: every Block the program constructs is built by
`SimplePiece::new`, which fixes `width = height = 10`; all Piece operations
(moves, `rotate`, the factory shapes, `whole_line`, and the block removal of
`delete_row`) preserve that unit size; and on unit Blocks `is_equal` holds iff
the `x` and `y` coordinates agree — no other attribute (colour lives on the
piece, not the Block) enters the collision predicate. -/
theorem blocks_are_unit_and_is_equal_is_position (x y : ℚ) (b b' : SimplePiece)
    (hb : b.width = 10 ∧ b.height = 10) (hb' : b'.width = 10 ∧ b'.height = 10)
    (p : Piece) (hp : UnitBlocks p) (row : ℚ) :
    ((SimplePiece.new x y).width = 10 ∧ (SimplePiece.new x y).height = 10) ∧
      (b.is_equal b' = true ↔ b.x = b'.x ∧ b.y = b'.y) ∧
      UnitBlocks p.move_left ∧ UnitBlocks p.move_right ∧ UnitBlocks p.move_down ∧
      UnitBlocks p.rotate ∧ UnitBlocks (delete_row_piece row p) ∧
      UnitBlocks Piece.long ∧ UnitBlocks Piece.square ∧ UnitBlocks Piece.t_piece ∧
      UnitBlocks Piece.l_piece ∧ UnitBlocks (Piece.whole_line y) := by
  refine ⟨⟨rfl, rfl⟩, ?_, ?_, ?_, ?_, ?_, ?_, ?_, ?_, ?_, ?_, ?_⟩
  · simp [SimplePiece.is_equal, hb.1, hb.2, hb'.1, hb'.2]
  · unfold Piece.move_left
    split
    · exact hp
    · intro c hc
      simp only [Piece.set_center, List.mem_map] at hc
      obtain ⟨d, hd, rfl⟩ := hc
      exact hp d hd
  · unfold Piece.move_right
    split
    · exact hp
    · intro c hc
      simp only [Piece.set_center, List.mem_map] at hc
      obtain ⟨d, hd, rfl⟩ := hc
      exact hp d hd
  · unfold Piece.move_down
    split
    · exact hp
    · intro c hc
      simp only [Piece.set_center, List.mem_map] at hc
      obtain ⟨d, hd, rfl⟩ := hc
      exact hp d hd
  · intro c hc
    simp only [Piece.rotate, List.map_map, List.mem_map] at hc
    obtain ⟨d, hd, rfl⟩ := hc
    exact hp d hd
  · exact fun c hc => hp c (delete_row_piece_subset row p hc)
  · intro c hc
    simp only [Piece.long, SimplePiece.new, List.mem_cons, List.not_mem_nil, or_false] at hc
    rcases hc with rfl | rfl | rfl | rfl <;> exact ⟨rfl, rfl⟩
  · intro c hc
    simp only [Piece.square, SimplePiece.new, List.mem_cons, List.not_mem_nil, or_false] at hc
    rcases hc with rfl | rfl | rfl | rfl <;> exact ⟨rfl, rfl⟩
  · intro c hc
    simp only [Piece.t_piece, SimplePiece.new, List.mem_cons, List.not_mem_nil, or_false] at hc
    rcases hc with rfl | rfl | rfl | rfl <;> exact ⟨rfl, rfl⟩
  · intro c hc
    simp only [Piece.l_piece, SimplePiece.new, List.mem_cons, List.not_mem_nil, or_false] at hc
    rcases hc with rfl | rfl | rfl | rfl <;> exact ⟨rfl, rfl⟩
  · intro c hc
    simp only [Piece.whole_line, SimplePiece.new, List.mem_cons, List.not_mem_nil, or_false] at hc
    rcases hc with rfl | rfl | rfl | rfl | rfl | rfl | rfl | rfl | rfl | rfl | rfl | rfl <;>
      exact ⟨rfl, rfl⟩

/-- Claim C9, witness: the characterisation at concrete Blocks and the
`plainPiece` fixture. -/
theorem blocks_are_unit_witness :
    ((SimplePiece.new 3 4).width = 10 ∧ (SimplePiece.new 3 4).height = 10) ∧
      UnitBlocks plainPiece ∧ UnitBlocks plainPiece.move_left :=
  ⟨⟨by decide, by decide⟩, by decide,
    (blocks_are_unit_and_is_equal_is_position 3 4 (SimplePiece.new 3 4) (SimplePiece.new 3 4)
      ⟨by decide, by decide⟩ ⟨by decide, by decide⟩ plainPiece (by decide) 0).2.2.1⟩

/-! ## Claim C4 -/

/-- Claim C4, amended: the left, right and rotate intents follow the
trial-then-commit protocol with the test "collides with a settled Block or out
of bounds"; the down intent commits on the collision test alone (no
out-of-bounds test).  A rejected intent leaves the whole state unchanged, and
none of the four intents can fail. -/
theorem intents_trial_then_commit (a : App) :
    ((collides a.current_piece.move_left a.pieces || a.current_piece.move_left.out_of_bounds) = true →
      a.move_current_left = a) ∧
    ((collides a.current_piece.move_left a.pieces || a.current_piece.move_left.out_of_bounds) = false →
      a.move_current_left = { a with current_piece := a.current_piece.move_left }) ∧
    ((collides a.current_piece.move_right a.pieces || a.current_piece.move_right.out_of_bounds) = true →
      a.move_current_right = a) ∧
    ((collides a.current_piece.move_right a.pieces || a.current_piece.move_right.out_of_bounds) = false →
      a.move_current_right = { a with current_piece := a.current_piece.move_right }) ∧
    ((collides a.current_piece.rotate a.pieces || a.current_piece.rotate.out_of_bounds) = true →
      a.rotate_current = a) ∧
    ((collides a.current_piece.rotate a.pieces || a.current_piece.rotate.out_of_bounds) = false →
      a.rotate_current = { a with current_piece := a.current_piece.rotate }) ∧
    (collides a.current_piece.move_down a.pieces = true → a.move_current_down = a) ∧
    (collides a.current_piece.move_down a.pieces = false →
      a.move_current_down = { a with current_piece := a.current_piece.move_down }) := by
  refine ⟨fun h => ?_, fun h => ?_, fun h => ?_, fun h => ?_, fun h => ?_, fun h => ?_,
    fun h => ?_, fun h => ?_⟩ <;>
    simp [App.move_current_left, App.move_current_right, App.rotate_current,
      App.move_current_down, h]

/-- Claim C4, witness: at the spawn state the left intent is rejected (the
trial clone still has Blocks above `y = 80`, hence out of bounds) and the
state is unchanged. -/
theorem intents_trial_then_commit_witness :
    (collides App.new.current_piece.move_left App.new.pieces ||
        App.new.current_piece.move_left.out_of_bounds) = true ∧
      App.new.move_current_left = App.new :=
  ⟨by decide, (intents_trial_then_commit App.new).1 (by decide)⟩

/-- Claim C4, counterexample: `move_current_down` does *not* test
`out_of_bounds` — with the active piece a Block at `x = 60` (beyond the right
wall) and no settled pieces, the trial clone is out of bounds yet collides with
nothing, and the intent still commits the move, changing the state where the
claim requires a no-op. -/
theorem down_intent_ignores_bounds :
    appOob.current_piece.move_down.out_of_bounds = true ∧
      collides appOob.current_piece.move_down appOob.pieces = false ∧
      appOob.move_current_down ≠ appOob := by
  have hm : oobPiece.move_down =
      { color := Color.white
        components := [⟨60, -10, 10, 10, (65, -5)⟩]
        min_y := -10
        max_y := -10
        center := (65, -5) } := by
    norm_num [Piece.move_down, Piece.set_center, get_center, get_min_y, get_max_y,
      min_y_fold, max_y_fold, oobPiece]
  have hcur : appOob.current_piece = oobPiece := rfl
  have hstep : appOob.move_current_down = { appOob with current_piece := oobPiece.move_down } := by
    simp [App.move_current_down, appOob, collides]
  refine ⟨by rw [hcur, hm]; decide, collides_nil _, ?_⟩
  rw [hstep, hm]
  decide

/-! ## Claim C3 -/

/-- Claim C3, counterexample: a Block at `x = -55` satisfies the interval
hypothesis `x ∈ [-60, 50]`, `y ≥ -90`, yet `move_left` accepts the move (no
Block has `x ≤ -60`) and produces `x = -65`, outside the wall.  The claim
needs the Blocks to sit on the 10-unit lattice. -/
theorem moves_can_escape_bounds_off_lattice :
    InHardBounds badPiece ∧ ¬ InHardBounds (applyMoves [Move.left] badPiece) := by
  constructor
  · decide
  · intro h
    have := h { x := -65, y := 0, width := 10, height := 10, center := (-60, 5) }
    norm_num [applyMoves, applyMove, Piece.move_left, Piece.set_center, get_center,
      badPiece] at this

/-- One move preserves the hard bounds and the lattice, for a lattice piece in
bounds. -/
theorem applyMove_preserves (m : Move) (p : Piece) (hb : InHardBounds p) (hl : OnLattice p) :
    InHardBounds (applyMove m p) ∧ OnLattice (applyMove m p) := by
  cases m
  case left =>
    show InHardBounds p.move_left ∧ OnLattice p.move_left
    unfold Piece.move_left
    split
    · exact ⟨hb, hl⟩
    · rename_i hguard
      simp only [Bool.not_eq_true, List.any_eq_false, decide_eq_true_eq] at hguard
      constructor <;> intro c hc <;>
        simp only [Piece.set_center, List.mem_map] at hc <;> obtain ⟨d, hd, rfl⟩ := hc
      · obtain ⟨⟨ax, hax⟩, _⟩ := hl d hd
        obtain ⟨h1, h2, h3⟩ := hb d hd
        have hne := hguard d hd
        have hx6 : (-6 : ℚ) < (ax : ℚ) := by rw [hax] at hne; push_neg at hne; linarith
        have hx6' : (-6 : ℤ) < ax := by exact_mod_cast hx6
        have hx5 : (-5 : ℚ) ≤ (ax : ℚ) := by exact_mod_cast (by omega : (-5 : ℤ) ≤ ax)
        show -60 ≤ d.x - 10 ∧ d.x - 10 ≤ 50 ∧ -90 ≤ d.y
        refine ⟨by rw [hax]; linarith, by linarith, h3⟩
      · obtain ⟨⟨ax, hax⟩, ⟨ay, hay⟩⟩ := hl d hd
        show (∃ a : ℤ, d.x - 10 = 10 * (a : ℚ)) ∧ ∃ b : ℤ, d.y = 10 * (b : ℚ)
        exact ⟨⟨ax - 1, by rw [hax]; push_cast; ring⟩, ⟨ay, hay⟩⟩
  case right =>
    show InHardBounds p.move_right ∧ OnLattice p.move_right
    unfold Piece.move_right
    split
    · exact ⟨hb, hl⟩
    · rename_i hguard
      simp only [Bool.not_eq_true, List.any_eq_false, decide_eq_true_eq] at hguard
      constructor <;> intro c hc <;>
        simp only [Piece.set_center, List.mem_map] at hc <;> obtain ⟨d, hd, rfl⟩ := hc
      · obtain ⟨⟨ax, hax⟩, _⟩ := hl d hd
        obtain ⟨h1, h2, h3⟩ := hb d hd
        have hne := hguard d hd
        have hx5 : (ax : ℚ) < 5 := by rw [hax] at hne; push_neg at hne; linarith
        have hx5' : ax < (5 : ℤ) := by exact_mod_cast hx5
        have hx4 : (ax : ℚ) ≤ 4 := by exact_mod_cast (by omega : ax ≤ (4 : ℤ))
        show -60 ≤ d.x + 10 ∧ d.x + 10 ≤ 50 ∧ -90 ≤ d.y
        refine ⟨by linarith, by rw [hax]; linarith, h3⟩
      · obtain ⟨⟨ax, hax⟩, ⟨ay, hay⟩⟩ := hl d hd
        show (∃ a : ℤ, d.x + 10 = 10 * (a : ℚ)) ∧ ∃ b : ℤ, d.y = 10 * (b : ℚ)
        exact ⟨⟨ax + 1, by rw [hax]; push_cast; ring⟩, ⟨ay, hay⟩⟩
  case down =>
    show InHardBounds p.move_down ∧ OnLattice p.move_down
    unfold Piece.move_down
    split
    · exact ⟨hb, hl⟩
    · rename_i hguard
      simp only [Bool.not_eq_true, List.any_eq_false, decide_eq_true_eq] at hguard
      constructor <;> intro c hc <;>
        simp only [Piece.set_center, List.mem_map] at hc <;> obtain ⟨d, hd, rfl⟩ := hc
      · obtain ⟨_, ⟨ay, hay⟩⟩ := hl d hd
        obtain ⟨h1, h2, h3⟩ := hb d hd
        have hne := hguard d hd
        have hy8 : (-9 : ℚ) < (ay : ℚ) := by rw [hay] at hne; push_neg at hne; linarith
        have hy8' : (-9 : ℤ) < ay := by exact_mod_cast hy8
        have hy8'' : (-8 : ℚ) ≤ (ay : ℚ) := by exact_mod_cast (by omega : (-8 : ℤ) ≤ ay)
        show -60 ≤ d.x ∧ d.x ≤ 50 ∧ -90 ≤ d.y - 10
        refine ⟨h1, h2, by rw [hay]; linarith⟩
      · obtain ⟨⟨ax, hax⟩, ⟨ay, hay⟩⟩ := hl d hd
        show (∃ a : ℤ, d.x = 10 * (a : ℚ)) ∧ ∃ b : ℤ, d.y - 10 = 10 * (b : ℚ)
        exact ⟨⟨ax, hax⟩, ⟨ay - 1, by rw [hay]; push_cast; ring⟩⟩

/-- Any sequence of moves preserves the hard bounds and the lattice. -/
theorem applyMoves_preserves (ms : List Move) : ∀ (p : Piece),
    InHardBounds p → OnLattice p → InHardBounds (applyMoves ms p) ∧ OnLattice (applyMoves ms p) := by
  induction ms with
  | nil => exact fun p hb hl => ⟨hb, hl⟩
  | cons m ms ih =>
      intro p hb hl
      have h1 := applyMove_preserves m p hb hl
      exact ih (applyMove m p) h1.1 h1.2

/-- Claim C3, amended: each move translates every Block by one grid step unless
a Block already sits at (or beyond) the corresponding wall/floor, in which case
it is a silent no-op; and a piece whose Blocks are in bounds *and on the
10-unit lattice* can never leave the bounds by any sequence of moves (the
lattice hypothesis is necessary, see `moves_can_escape_bounds_off_lattice`). -/
theorem moves_respect_bounds (p : Piece) :
    (p.components.any (fun c => decide (c.x ≤ -60)) = true → p.move_left = p) ∧
    (p.components.any (fun c => decide (c.x ≤ -60)) = false →
      p.move_left.components.map (fun c => (c.x, c.y)) =
        p.components.map (fun c => (c.x - 10, c.y))) ∧
    (p.components.any (fun c => decide (50 ≤ c.x)) = true → p.move_right = p) ∧
    (p.components.any (fun c => decide (50 ≤ c.x)) = false →
      p.move_right.components.map (fun c => (c.x, c.y)) =
        p.components.map (fun c => (c.x + 10, c.y))) ∧
    (p.components.any (fun c => decide (c.y ≤ -90)) = true → p.move_down = p) ∧
    (p.components.any (fun c => decide (c.y ≤ -90)) = false →
      p.move_down.components.map (fun c => (c.x, c.y)) =
        p.components.map (fun c => (c.x, c.y - 10))) ∧
    (InHardBounds p → OnLattice p → ∀ ms : List Move, InHardBounds (applyMoves ms p)) := by
  refine ⟨fun h => ?_, fun h => ?_, fun h => ?_, fun h => ?_, fun h => ?_, fun h => ?_,
    fun hb hl ms => (applyMoves_preserves ms p hb hl).1⟩ <;>
    simp [Piece.move_left, Piece.move_right, Piece.move_down, Piece.set_center, h,
      List.map_map, Function.comp]

/-- Claim C3, witness: the spawn I-piece is in bounds and on the lattice, and
stays in bounds after a left-down-down sequence. -/
theorem moves_respect_bounds_witness :
    InHardBounds Piece.long ∧
      InHardBounds (applyMoves [Move.left, Move.down, Move.down] Piece.long) := by
  have hl : OnLattice Piece.long := by
    intro c hc
    simp only [Piece.long, SimplePiece.new, List.mem_cons, List.not_mem_nil, or_false] at hc
    rcases hc with rfl | rfl | rfl | rfl
    · exact ⟨⟨0, by norm_num⟩, ⟨9, by norm_num⟩⟩
    · exact ⟨⟨0, by norm_num⟩, ⟨8, by norm_num⟩⟩
    · exact ⟨⟨0, by norm_num⟩, ⟨7, by norm_num⟩⟩
    · exact ⟨⟨0, by norm_num⟩, ⟨6, by norm_num⟩⟩
  exact ⟨by decide, ((moves_respect_bounds Piece.long).2.2.2.2.2.2 (by decide) hl
    [Move.left, Move.down, Move.down])⟩

/-! ## Claim C5 -/

/-- Claim C5, counterexample: `delete_row` removes the Block at `y = -40` from
`stalePiece` but never recomputes the cached bounds, so `min_y` stays `-40`
while the remaining Blocks' minimum `y` is `-30`. -/
theorem delete_row_leaves_stale_bounds :
    BoundsExact stalePiece ∧ ¬ BoundsExact (delete_row_piece (-40) stalePiece) := by
  decide

/-- `min_y_fold` over a list mapped by a function shifting `y` by `-d`. -/
theorem min_y_fold_map (f : SimplePiece → SimplePiece) (d : ℚ)
    (hf : ∀ c, (f c).y = c.y - d) :
    ∀ (cmps : List SimplePiece) (m : ℚ),
      min_y_fold (cmps.map f) (m - d) = min_y_fold cmps m - d := by
  intro cmps
  induction cmps with
  | nil => intro m; simp [min_y_fold]
  | cons c cs ih =>
      intro m
      simp only [List.map_cons, min_y_fold, List.foldl_cons, hf]
      by_cases h : c.y < m
      · rw [if_pos (by linarith), if_pos h]; exact ih c.y
      · rw [if_neg (by intro hlt; exact h (by linarith)), if_neg h]; exact ih m

/-- `max_y_fold` over a list mapped by a function shifting `y` by `-d`. -/
theorem max_y_fold_map (f : SimplePiece → SimplePiece) (d : ℚ)
    (hf : ∀ c, (f c).y = c.y - d) :
    ∀ (cmps : List SimplePiece) (m : ℚ),
      max_y_fold (cmps.map f) (m - d) = max_y_fold cmps m - d := by
  intro cmps
  induction cmps with
  | nil => intro m; simp [max_y_fold]
  | cons c cs ih =>
      intro m
      simp only [List.map_cons, max_y_fold, List.foldl_cons, hf]
      by_cases h : m < c.y
      · rw [if_pos (by linarith), if_pos h]; exact ih c.y
      · rw [if_neg (by intro hlt; exact h (by linarith)), if_neg h]; exact ih m

/-- `min_y_fold` ignores a map that preserves every `y`. -/
theorem min_y_fold_map_id (f : SimplePiece → SimplePiece) (hf : ∀ c, (f c).y = c.y) :
    ∀ (cmps : List SimplePiece) (m : ℚ), min_y_fold (cmps.map f) m = min_y_fold cmps m := by
  intro cmps
  induction cmps with
  | nil => intro m; rfl
  | cons c cs ih => intro m; simp only [List.map_cons, min_y_fold, List.foldl_cons, hf]; exact ih _

/-- `max_y_fold` ignores a map that preserves every `y`. -/
theorem max_y_fold_map_id (f : SimplePiece → SimplePiece) (hf : ∀ c, (f c).y = c.y) :
    ∀ (cmps : List SimplePiece) (m : ℚ), max_y_fold (cmps.map f) m = max_y_fold cmps m := by
  intro cmps
  induction cmps with
  | nil => intro m; rfl
  | cons c cs ih => intro m; simp only [List.map_cons, max_y_fold, List.foldl_cons, hf]; exact ih _

/-- `get_min_y` ignores a map that preserves every `y`. -/
theorem get_min_y_map_id (f : SimplePiece → SimplePiece) (hf : ∀ c, (f c).y = c.y)
    (cmps : List SimplePiece) : get_min_y (cmps.map f) = get_min_y cmps := by
  cases cmps with
  | nil => rfl
  | cons c cs => simp only [List.map_cons, get_min_y, hf]; exact min_y_fold_map_id f hf cs c.y

/-- `get_max_y` ignores a map that preserves every `y`. -/
theorem get_max_y_map_id (f : SimplePiece → SimplePiece) (hf : ∀ c, (f c).y = c.y)
    (cmps : List SimplePiece) : get_max_y (cmps.map f) = get_max_y cmps := by
  cases cmps with
  | nil => rfl
  | cons c cs => simp only [List.map_cons, get_max_y, hf]; exact max_y_fold_map_id f hf cs c.y

/-- `get_min_y` over a non-empty list mapped by the snap shift. -/
theorem get_min_y_map_snap (xd yd : ℚ) (cmps : List SimplePiece) (h : cmps ≠ []) :
    get_min_y (cmps.map (rotate_snap xd yd)) = get_min_y cmps - yd := by
  cases cmps with
  | nil => exact absurd rfl h
  | cons c cs =>
      simp only [List.map_cons, get_min_y]
      exact min_y_fold_map (rotate_snap xd yd) yd (fun _ => rfl) cs c.y

/-- `get_max_y` over a non-empty list mapped by the snap shift. -/
theorem get_max_y_map_snap (xd yd : ℚ) (cmps : List SimplePiece) (h : cmps ≠ []) :
    get_max_y (cmps.map (rotate_snap xd yd)) = get_max_y cmps - yd := by
  cases cmps with
  | nil => exact absurd rfl h
  | cons c cs =>
      simp only [List.map_cons, get_max_y]
      exact max_y_fold_map (rotate_snap xd yd) yd (fun _ => rfl) cs c.y

/-- `rotate` always recomputes the bound cache correctly: the snap shift of
every Block's `y` by `-y_diff` matches the `min_y := min1 - y_diff`,
`max_y := max1 - y_diff` assignments. -/
theorem rotate_bounds_exact (p : Piece) : BoundsExact p.rotate := by
  have hz : round_to_tenths 0 = 0 := by
    have ht : Int.tdiv 0 10 = 0 := by decide
    norm_num [round_to_tenths, round_away, ht]
  by_cases hc : p.components = []
  · simp [BoundsExact, Piece.rotate, hc, get_min_y, get_max_y, hz]
  · have h1 : p.components.map (rotate_spin p.center.1 p.center.2) ≠ [] := by
      simpa using hc
    constructor
    · simp only [Piece.rotate]
      rw [get_min_y_map_snap _ _ _ h1]
    · simp only [Piece.rotate]
      rw [get_max_y_map_snap _ _ _ h1]

/-- Claim C5, amended: the moves maintain the exact bound cache (`move_left`
and `move_right` do not touch `y`; `move_down` and `rotate` recompute), but
`delete_row`'s block removal never updates `min_y`/`max_y`; after it only the
outer-bound inequality `min_y ≤ y ≤ max_y` over the surviving Blocks is
guaranteed, and the cached extremes can be stale
(`delete_row_leaves_stale_bounds`). -/
theorem bounds_cache_spec (p : Piece) (row : ℚ) :
    (BoundsExact p → BoundsExact p.move_left) ∧
    (BoundsExact p → BoundsExact p.move_right) ∧
    (BoundsExact p → BoundsExact p.move_down) ∧
    BoundsExact p.rotate ∧
    (OuterBounds p → OuterBounds (delete_row_piece row p)) := by
  refine ⟨fun hb => ?_, fun hb => ?_, fun hb => ?_, rotate_bounds_exact p, fun hb => ?_⟩
  · unfold Piece.move_left
    split
    · exact hb
    · simp only [Piece.set_center]
      refine ⟨?_, ?_⟩
      · rw [get_min_y_map_id
            (fun c => ({ c with x := c.x - 10, center := (c.center.1 - 10, c.center.2) } : SimplePiece))
            (fun _ => rfl)]
        exact hb.1
      · rw [get_max_y_map_id
            (fun c => ({ c with x := c.x - 10, center := (c.center.1 - 10, c.center.2) } : SimplePiece))
            (fun _ => rfl)]
        exact hb.2
  · unfold Piece.move_right
    split
    · exact hb
    · simp only [Piece.set_center]
      refine ⟨?_, ?_⟩
      · rw [get_min_y_map_id
            (fun c => ({ c with x := c.x + 10, center := (c.center.1 + 10, c.center.2) } : SimplePiece))
            (fun _ => rfl)]
        exact hb.1
      · rw [get_max_y_map_id
            (fun c => ({ c with x := c.x + 10, center := (c.center.1 + 10, c.center.2) } : SimplePiece))
            (fun _ => rfl)]
        exact hb.2
  · unfold Piece.move_down
    split
    · exact hb
    · exact ⟨rfl, rfl⟩
  · unfold delete_row_piece
    split
    · exact hb
    · intro c hc
      exact hb c (delete_row_go_subset row _ _ _ _ hc)

/-- Claim C5, witness: the bound cache of the spawning I-piece is exact and
stays exact after a left move. -/
theorem bounds_cache_spec_witness : BoundsExact Piece.long ∧ BoundsExact Piece.long.move_left :=
  ⟨by decide, (bounds_cache_spec Piece.long 0).1 (by decide)⟩

/-! ## Claim C2 -/

/-- Claim C2, counterexample: with an empty settled collection and the active
piece one step above the floor, the trial copy moved down collides with nothing
and the active piece's `min_y` is `-80 ≠ -90`, so the claim predicts "moved
down and not locked this tick" — but `handle_piece` moves the piece down first
and then applies the lock test to the moved piece, locking it in the same
tick. -/
theorem handle_piece_locks_after_move :
    collides lowLong.move_down appLow.pieces = false ∧
      appLow.current_piece.min_y ≠ -90 ∧
      appLow.handle_piece plainPiece =
        { appLow with pieces := [movedLong], current_piece := plainPiece } ∧
      (appLow.handle_piece plainPiece).pieces ≠ [] := by
  have hm : lowLong.move_down = movedLong := by
    norm_num [Piece.move_down, Piece.set_center, get_center, get_min_y, get_max_y,
      min_y_fold, max_y_fold, lowLong, movedLong]
  have h3 : appLow.handle_piece plainPiece =
      { appLow with pieces := [movedLong], current_piece := plainPiece } := by
    simp [App.handle_piece, App.move_current_down, App.current_piece_at_bottom, collides,
      appLow, hm, movedLong]
  exact ⟨by simp [collides, appLow], by decide, h3, by rw [h3]; decide⟩

/-- Claim C2, amended: `handle_piece` first commits the downward move (when the
trial copy does not collide), then applies the lock test to the *moved* piece:
when the original trial copy collides, the piece is locked unchanged; when the
move commits, the piece is locked *as moved, in the same tick* iff a further
trial copy collides or the moved piece's `min_y` is `-90`; only otherwise does
the tick end with the piece moved and still active.  In every case the settled
pieces are only appended to and the replacement piece is the freshly generated
one. -/
theorem handle_piece_spec (fresh : Piece) (a : App) :
    (collides a.current_piece.move_down a.pieces = true →
      a.handle_piece fresh =
        { a with pieces := a.pieces ++ [a.current_piece], current_piece := fresh }) ∧
    (collides a.current_piece.move_down a.pieces = false →
      (collides a.current_piece.move_down.move_down a.pieces = true ∨
        a.current_piece.move_down.min_y = -90) →
      a.handle_piece fresh =
        { a with pieces := a.pieces ++ [a.current_piece.move_down], current_piece := fresh }) ∧
    (collides a.current_piece.move_down a.pieces = false →
      collides a.current_piece.move_down.move_down a.pieces = false →
      a.current_piece.move_down.min_y ≠ -90 →
      a.handle_piece fresh = { a with current_piece := a.current_piece.move_down }) := by
  refine ⟨fun h1 => ?_, fun h1 h2 => ?_, fun h1 h2 h3 => ?_⟩
  · simp [App.handle_piece, App.move_current_down, App.current_piece_at_bottom, h1]
  · rcases h2 with h2 | h2 <;>
      simp [App.handle_piece, App.move_current_down, App.current_piece_at_bottom, h1, h2]
  · simp [App.handle_piece, App.move_current_down, App.current_piece_at_bottom, h1, h2, h3]

/-- Claim C2, witness: at the spawn state the piece falls one step and is not
locked. -/
theorem handle_piece_spec_witness :
    Piece.long.move_down.min_y ≠ -90 ∧
      App.new.handle_piece Piece.square = { App.new with current_piece := Piece.long.move_down } := by
  have h3 : Piece.long.move_down.min_y ≠ -90 := by
    norm_num [Piece.move_down, Piece.set_center, get_center, get_min_y, get_max_y,
      min_y_fold, max_y_fold, Piece.long, SimplePiece.new]
  exact ⟨h3, (handle_piece_spec Piece.square App.new).2.2 (collides_nil _) (collides_nil _) h3⟩

/-! ## Row-clear machinery (claims C1 and C10) -/

/-- `List.any` congruence (pointwise on members). -/
theorem any_congr_mem {α : Type} {l : List α} {p q : α → Bool}
    (h : ∀ x ∈ l, p x = q x) : l.any p = l.any q := by
  induction l with
  | nil => rfl
  | cons a l ih =>
      simp only [List.any_cons, h a (List.mem_cons_self a l)]
      rw [ih fun x hx => h x (List.mem_cons_of_mem a hx)]

/-- `List.all` congruence (pointwise on members). -/
theorem all_congr_mem {α : Type} {l : List α} {p q : α → Bool}
    (h : ∀ x ∈ l, p x = q x) : l.all p = l.all q := by
  induction l with
  | nil => rfl
  | cons a l ih =>
      simp only [List.all_cons, h a (List.mem_cons_self a l)]
      rw [ih fun x hx => h x (List.mem_cons_of_mem a hx)]

/-- Erasing at the index right after a prefix removes the head after the
prefix. -/
theorem eraseIdx_after_prefix {α : Type} (A rest : List α) (c : α) :
    (A ++ c :: rest).eraseIdx A.length = A ++ rest := by
  rw [List.eraseIdx_append_of_length_le (le_refl _), Nat.sub_self]
  rfl

/-- The removal loop of `delete_row` keeps exactly the Blocks with `y ≠ row`,
in order: invariant form, where `A` is the already-scanned (filtered) prefix of
the live list and `count` Blocks have been removed so far. -/
theorem delete_row_go_spec (row : ℚ) :
    ∀ (todo A : List SimplePiece) (count : ℕ),
      delete_row_go row (A ++ todo) count (count + A.length) todo =
        A ++ todo.filter (fun c => !decide (c.y = row)) := by
  intro todo
  induction todo with
  | nil => intro A count; simp [delete_row_go]
  | cons c todo ih =>
      intro A count
      unfold delete_row_go
      by_cases h : c.y = row
      · rw [if_pos h]
        have hidx : count + A.length - count = A.length := by omega
        rw [hidx, eraseIdx_after_prefix]
        have harg := ih A (count + 1)
        have hi : count + 1 + A.length = count + A.length + 1 := by omega
        rw [hi] at harg
        rw [harg, List.filter_cons_of_neg (by simp [h])]
      · rw [if_neg h]
        have harg := ih (A ++ [c]) count
        have hi : count + (A ++ [c]).length = count + A.length + 1 := by
          simp; omega
        rw [hi, List.append_assoc] at harg
        simp only [List.singleton_append] at harg
        rw [harg, List.filter_cons_of_pos (by simp [h]), List.append_assoc]
        rfl

/-- The removal loop, as called by `delete_row`, equals a filter. -/
theorem delete_row_go_eq_filter (row : ℚ) (cs : List SimplePiece) :
    delete_row_go row cs 0 0 cs = cs.filter (fun c => !decide (c.y = row)) := by
  have h := delete_row_go_spec row cs [] 0
  simpa using h

/-- `is_equal` forces equal `y` coordinates. -/
theorem is_equal_y_eq {c b : SimplePiece} (h : c.is_equal b = true) : c.y = b.y := by
  simp only [SimplePiece.is_equal, Bool.and_eq_true, decide_eq_true_eq] at h
  exact h.1.1.2

/-- Under the outer-bound invariant, `delete_row` on one piece is exactly a
filter of the Blocks with `y ≠ row` (the skip branch fires only when no Block
can lie on `row`). -/
theorem delete_row_piece_eq_filter (row : ℚ) (p : Piece) (hb : OuterBounds p) :
    delete_row_piece row p =
      { p with components := p.components.filter fun c => !decide (c.y = row) } := by
  unfold delete_row_piece
  split
  · rename_i hskip
    have hall : ∀ c ∈ p.components, (!decide (c.y = row)) = true := by
      intro c hc
      obtain ⟨h1, h2⟩ := hb c hc
      simp only [Bool.or_eq_true, decide_eq_true_eq] at hskip
      simp only [Bool.not_eq_true', decide_eq_false_iff_not]
      rcases hskip with hlt | hgt
      · intro hcy; rw [hcy] at h2; linarith
      · intro hcy; rw [hcy] at h1; linarith
    rw [List.filter_eq_self.mpr hall]
  · rw [delete_row_go_eq_filter]

/-- `delete_row` on one piece preserves every Block whose `y` differs from the
deleted row — with or without the outer-bound invariant. -/
theorem delete_row_piece_filter (row : ℚ) (p : Piece) (Q : SimplePiece → Bool)
    (hQ : ∀ c : SimplePiece, Q c = true → ¬(c.y = row)) :
    (delete_row_piece row p).components.filter Q = p.components.filter Q := by
  unfold delete_row_piece
  split
  · rfl
  · show (delete_row_go row p.components 0 0 p.components).filter Q = _
    rw [delete_row_go_eq_filter, List.filter_filter]
    refine List.filter_congr fun c _ => ?_
    cases hqc : Q c with
    | false => simp [hqc]
    | true => simp [hqc, hQ c hqc]

/-- `delete_row` on one piece does not change whether a Block off the deleted
row is blocked. -/
theorem is_blocked_delete_ne (row : ℚ) (p : Piece) (cmp : SimplePiece)
    (h : cmp.y ≠ row) :
    (delete_row_piece row p).is_blocked cmp = p.is_blocked cmp := by
  unfold delete_row_piece
  split
  · rfl
  · show (delete_row_go row p.components 0 0 p.components).any _ = _
    rw [delete_row_go_eq_filter, List.any_filter]
    refine any_congr_mem fun c _ => ?_
    cases he : c.is_equal cmp with
    | false => simp [he]
    | true =>
        have hy : ¬(c.y = row) := by rw [is_equal_y_eq he]; exact h
        simp [he, hy]

/-- Every Block of the `whole_line` template at `y` has that `y`. -/
theorem whole_line_y (y : ℚ) : ∀ cmp ∈ (Piece.whole_line y).components, cmp.y = y := by
  intro cmp hc
  simp only [Piece.whole_line, SimplePiece.new, List.mem_cons, List.not_mem_nil, or_false] at hc
  rcases hc with rfl | rfl | rfl | rfl | rfl | rfl | rfl | rfl | rfl | rfl | rfl | rfl <;> rfl

/-- Deleting one row does not change the completeness of a different row. -/
theorem rowComplete_delete_ne (row y' : ℚ) (h : y' ≠ row) (pieces : List Piece) :
    rowComplete (pieces.map (delete_row_piece row)) y' = rowComplete pieces y' := by
  unfold rowComplete
  refine all_congr_mem fun cmp hc => ?_
  rw [List.any_map]
  refine any_congr_mem fun q _ => ?_
  show (delete_row_piece row q).is_blocked cmp = q.is_blocked cmp
  exact is_blocked_delete_ne row q cmp (by rw [whole_line_y y' cmp hc]; exact h)

/-- Distinct loop indexes address distinct rows. -/
theorem row_cast_ne {i j : ℤ} (h : i ≠ j) : ((10 * i : ℤ) : ℚ) ≠ ((10 * j : ℤ) : ℚ) := by
  intro hc
  have : (10 * i : ℤ) = 10 * j := by exact_mod_cast hc
  omega

/-- Deleting the row of index `i0` changes no completeness test of the other
candidate indexes. -/
theorem clearedRows_delete (pieces : List Piece) (i0 : ℤ) (cands : List ℤ)
    (h : i0 ∉ cands) :
    clearedRows (pieces.map (delete_row_piece ((10 * i0 : ℤ) : ℚ))) cands =
      clearedRows pieces cands := by
  unfold clearedRows
  refine List.filter_congr fun i hi => ?_
  exact rowComplete_delete_ne _ _ (row_cast_ne fun he => h (by rw [← he]; exact hi)) pieces

/-- `delete_row` on one piece keeps the outer-bound invariant (it can only
remove Blocks, and leaves the cached bounds alone). -/
theorem outerBounds_delete (row : ℚ) (p : Piece) (hb : OuterBounds p) :
    OuterBounds (delete_row_piece row p) := by
  unfold delete_row_piece
  split
  · exact hb
  · intro c hc
    exact hb c (delete_row_go_subset row _ _ _ _ hc)

/-- Dropping no rows is the identity. -/
theorem dropRows_nil (p : Piece) : dropRows [] p = p := by
  simp [dropRows]

/-- Under the outer-bound invariant, deleting the row of index `i0` and then
dropping the rows of `CL` is dropping the rows of `i0 :: CL`. -/
theorem dropRows_delete (p : Piece) (hb : OuterBounds p) (i0 : ℤ) (CL : List ℤ) :
    dropRows CL (delete_row_piece ((10 * i0 : ℤ) : ℚ) p) = dropRows (i0 :: CL) p := by
  rw [delete_row_piece_eq_filter _ _ hb]
  unfold dropRows
  congr 1
  rw [List.filter_filter]
  refine List.filter_congr fun c _ => ?_
  simp only [List.any_cons, Bool.not_or]
  exact Bool.and_comm _ _

/-- The loop of `row_clear`, characterised: under the outer-bound invariant,
folding `rowClearStep` over distinct candidate indexes deletes exactly the
Blocks on complete rows from every settled piece and adds 1000 per complete
row to the score (mod `2^64`). -/
theorem rowClear_fold_spec (cands : List ℤ) :
    ∀ a : App, cands.Nodup → (∀ p ∈ a.pieces, OuterBounds p) → a.score < W →
      cands.foldl rowClearStep a =
        { a with
            score := (a.score + 1000 * (clearedRows a.pieces cands).length) % W,
            pieces := a.pieces.map (dropRows (clearedRows a.pieces cands)) } := by
  induction cands with
  | nil =>
      intro a _ _ ha
      simp only [List.foldl_nil, clearedRows, List.filter_nil, List.length_nil, Nat.mul_zero,
        Nat.add_zero, Nat.mod_eq_of_lt ha]
      rw [List.map_congr_left fun p _ => dropRows_nil p]
      rw [show (a.pieces.map fun p => p) = a.pieces from List.map_id' a.pieces]
  | cons i0 cands ih =>
      intro a hnd hb ha
      have hni : i0 ∉ cands := (List.nodup_cons.mp hnd).1
      have hnd' : cands.Nodup := (List.nodup_cons.mp hnd).2
      rw [List.foldl_cons]
      by_cases hC : rowComplete a.pieces ((10 * i0 : ℤ) : ℚ) = true
      · have hstep : rowClearStep a i0 =
            { a with score := (a.score + 1000) % W,
                     pieces := a.pieces.map (delete_row_piece ((10 * i0 : ℤ) : ℚ)) } := by
          unfold rowClearStep App.delete_row
          rw [if_pos hC]
        rw [hstep]
        have hb1 : ∀ p ∈ a.pieces.map (delete_row_piece ((10 * i0 : ℤ) : ℚ)), OuterBounds p := by
          intro p hp
          obtain ⟨q, hq, rfl⟩ := List.mem_map.mp hp
          exact outerBounds_delete _ q (hb q hq)
        have ha1 : (a.score + 1000) % W < W := Nat.mod_lt _ (by norm_num [W])
        rw [ih { a with score := (a.score + 1000) % W,
                        pieces := a.pieces.map (delete_row_piece ((10 * i0 : ℤ) : ℚ)) }
            hnd' hb1 ha1]
        have hcl : clearedRows (a.pieces.map (delete_row_piece ((10 * i0 : ℤ) : ℚ))) cands =
            clearedRows a.pieces cands := clearedRows_delete a.pieces i0 cands hni
        have hK : clearedRows a.pieces (i0 :: cands) = i0 :: clearedRows a.pieces cands := by
          unfold clearedRows
          exact List.filter_cons_of_pos hC
        dsimp only
        rw [hcl, hK]
        congr 1
        · rw [Nat.mod_add_mod, List.length_cons]
          congr 1
          ring
        · rw [List.map_map]
          refine List.map_congr_left fun p hp => ?_
          exact dropRows_delete p (hb p hp) i0 _
      · have hstep : rowClearStep a i0 = a := by
          unfold rowClearStep
          rw [if_neg hC]
        rw [hstep, ih a hnd' hb ha]
        have hK : clearedRows a.pieces (i0 :: cands) = clearedRows a.pieces cands := by
          unfold clearedRows
          exact List.filter_cons_of_neg hC
        rw [hK]

/-- The loop of `row_clear`, weak characterisation without any invariant: the
number of settled pieces never changes, the score increases by exactly 1000 per
complete candidate row (mod `2^64`), and Blocks lying on none of the candidate
rows are never touched. -/
theorem rowClear_fold_weak (cands : List ℤ) :
    ∀ a : App, cands.Nodup →
      ((cands.foldl rowClearStep a).pieces.length = a.pieces.length) ∧
      (a.score < W →
        (cands.foldl rowClearStep a).score =
          (a.score + 1000 * (clearedRows a.pieces cands).length) % W) ∧
      (∀ Q : SimplePiece → Bool,
        (∀ c : SimplePiece, Q c = true → ∀ i ∈ cands, ¬(c.y = ((10 * i : ℤ) : ℚ))) →
        (cands.foldl rowClearStep a).pieces.map (fun p => p.components.filter Q) =
          a.pieces.map (fun p => p.components.filter Q)) := by
  induction cands with
  | nil =>
      intro a _
      refine ⟨rfl, fun ha => ?_, fun Q _ => rfl⟩
      simp [clearedRows, Nat.mod_eq_of_lt ha]
  | cons i0 cands ih =>
      intro a hnd
      have hnd' : cands.Nodup := (List.nodup_cons.mp hnd).2
      rw [List.foldl_cons]
      by_cases hC : rowComplete a.pieces ((10 * i0 : ℤ) : ℚ) = true
      · have hstep : rowClearStep a i0 =
            { a with score := (a.score + 1000) % W,
                     pieces := a.pieces.map (delete_row_piece ((10 * i0 : ℤ) : ℚ)) } := by
          unfold rowClearStep App.delete_row
          rw [if_pos hC]
        rw [hstep]
        obtain ⟨ihlen, ihscore, ihQ⟩ := ih
          { a with score := (a.score + 1000) % W,
                   pieces := a.pieces.map (delete_row_piece ((10 * i0 : ℤ) : ℚ)) } hnd'
        refine ⟨?_, fun ha => ?_, fun Q hQ => ?_⟩
        · rw [ihlen]; dsimp only; rw [List.length_map]
        · have ha1 : (a.score + 1000) % W < W := Nat.mod_lt _ (by norm_num [W])
          rw [ihscore ha1]
          dsimp only
          have hcl : clearedRows (a.pieces.map (delete_row_piece ((10 * i0 : ℤ) : ℚ))) cands =
              clearedRows a.pieces cands :=
            clearedRows_delete a.pieces i0 cands (List.nodup_cons.mp hnd).1
          have hK : clearedRows a.pieces (i0 :: cands) = i0 :: clearedRows a.pieces cands := by
            unfold clearedRows
            exact List.filter_cons_of_pos hC
          rw [hcl, hK, Nat.mod_add_mod, List.length_cons]
          congr 1
          ring
        · have hQ' : ∀ c : SimplePiece, Q c = true → ∀ i ∈ cands, ¬(c.y = ((10 * i : ℤ) : ℚ)) :=
            fun c hc i hi => hQ c hc i (List.mem_cons_of_mem i0 hi)
          rw [ihQ Q hQ']
          dsimp only
          rw [List.map_map]
          refine List.map_congr_left fun p _ => ?_
          exact delete_row_piece_filter _ p Q fun c hc =>
            hQ c hc i0 (List.mem_cons_self i0 cands)
      · have hstep : rowClearStep a i0 = a := by
          unfold rowClearStep
          rw [if_neg hC]
        rw [hstep]
        obtain ⟨ihlen, ihscore, ihQ⟩ := ih a hnd'
        refine ⟨ihlen, fun ha => ?_, fun Q hQ => ?_⟩
        · have hK : clearedRows a.pieces (i0 :: cands) = clearedRows a.pieces cands := by
            unfold clearedRows
            exact List.filter_cons_of_neg hC
          rw [ihscore ha, hK]
        · exact ihQ Q fun c hc i hi => hQ c hc i (List.mem_cons_of_mem i0 hi)

/-! ## Claim C1 -/

/-- Claim C1: under the outer-bound invariant of the settled pieces (the
invariant the program maintains, see `bounds_cache_spec`), `row_clear` is fully
characterised: a candidate row `10 * i` is cleared iff it is complete —
`rowComplete` being, by definition, "every one of the 12 `whole_line` reference
Blocks at that `y` `is_blocked` by some settled piece" — and the pass (1)
removes from every settled piece exactly the Blocks lying on complete rows
(pieces may end up empty but the piece count is unchanged), (2) leaves Blocks
of incomplete rows untouched, and (3) adds exactly 1000 per complete row to
the score (in `u64` arithmetic). -/
theorem row_clear_spec (a : App) (hb : ∀ p ∈ a.pieces, OuterBounds p) (ha : a.score < W) :
    a.row_clear =
      { a with
          score := (a.score + 1000 * (clearedRows a.pieces rowClearCandidates).length) % W,
          pieces := a.pieces.map (dropRows (clearedRows a.pieces rowClearCandidates)) } ∧
    a.row_clear.pieces.length = a.pieces.length ∧
    (∀ i ∈ rowClearCandidates, i ∈ clearedRows a.pieces rowClearCandidates ↔
      rowComplete a.pieces ((10 * i : ℤ) : ℚ) = true) ∧
    (∀ i ∈ rowClearCandidates, rowComplete a.pieces ((10 * i : ℤ) : ℚ) = true →
      ∀ p ∈ a.row_clear.pieces, ∀ c ∈ p.components, ¬(c.y = ((10 * i : ℤ) : ℚ))) ∧
    (∀ i ∈ rowClearCandidates, rowComplete a.pieces ((10 * i : ℤ) : ℚ) = false →
      a.row_clear.pieces.map
          (fun p => p.components.filter fun c => decide (c.y = ((10 * i : ℤ) : ℚ))) =
        a.pieces.map
          (fun p => p.components.filter fun c => decide (c.y = ((10 * i : ℤ) : ℚ)))) := by
  have hnd : rowClearCandidates.Nodup := by decide
  have hmain : a.row_clear =
      { a with
          score := (a.score + 1000 * (clearedRows a.pieces rowClearCandidates).length) % W,
          pieces := a.pieces.map (dropRows (clearedRows a.pieces rowClearCandidates)) } :=
    rowClear_fold_spec rowClearCandidates a hnd hb ha
  refine ⟨hmain, ?_, ?_, ?_, ?_⟩
  · rw [hmain]; dsimp only; rw [List.length_map]
  · intro i hi
    unfold clearedRows
    simp only [List.mem_filter]
    exact ⟨fun h => h.2, fun h => ⟨hi, h⟩⟩
  · intro i hi hcomp p hp c hc
    rw [hmain] at hp
    dsimp only at hp
    obtain ⟨q, hq, rfl⟩ := List.mem_map.mp hp
    unfold dropRows at hc
    have hpred := (List.mem_filter.mp hc).2
    simp only [Bool.not_eq_true', List.any_eq_false] at hpred
    exact fun hy => hpred i (List.mem_filter.mpr ⟨hi, hcomp⟩) (decide_eq_true hy)
  · intro i hi hcomp
    rw [hmain]
    dsimp only
    rw [List.map_map]
    refine List.map_congr_left fun p _ => ?_
    show (dropRows (clearedRows a.pieces rowClearCandidates) p).components.filter _ = _
    unfold dropRows
    rw [List.filter_filter]
    refine List.filter_congr fun c _ => ?_
    cases hd : decide (c.y = ((10 * i : ℤ) : ℚ)) with
    | false => simp
    | true =>
        have hcy : c.y = ((10 * i : ℤ) : ℚ) := of_decide_eq_true hd
        have hjs : ∀ j ∈ clearedRows a.pieces rowClearCandidates,
            ¬(c.y = ((10 * j : ℤ) : ℚ)) := by
          intro j hj
          have hjc : rowComplete a.pieces ((10 * j : ℤ) : ℚ) = true :=
            (List.mem_filter.mp hj).2
          have hji : j ≠ i := by
            intro he
            rw [he] at hjc
            rw [hjc] at hcomp
            exact Bool.true_eq_false.mp hcomp
          rw [hcy]
          exact row_cast_ne fun he => hji he.symm
        have hany : ((clearedRows a.pieces rowClearCandidates).any
            fun j => decide (c.y = ((10 * j : ℤ) : ℚ))) = false := by
          rw [List.any_eq_false]
          exact fun j hj hdj => hjs j hj (of_decide_eq_true hdj)
        rw [hany]
        rfl

/-- Claim C1, witness: a board with one settled piece filling the whole row
`y = -40` satisfies the hypotheses; `row_clear` empties that piece (without
removing it) and scores exactly 1000. -/
theorem row_clear_spec_witness :
    (∀ p ∈ appFull.pieces, OuterBounds p) ∧ appFull.score < W ∧
      appFull.row_clear.score = 1000 ∧
      appFull.row_clear.pieces.map Piece.components = [[]] := by
  have h := (row_clear_spec appFull (by decide) (by decide)).1
  refine ⟨by decide, by decide, ?_, ?_⟩
  · rw [h]; decide
  · rw [h]; decide

/-! ## Claim C10 -/

/-- Claim C10: `row_clear` scans only the rows `10 * i`, `i ∈ -9..8`, all of
which lie in `[-90, 70]`; Blocks of settled pieces at `y = 80` or `y = 90` are
never removed (in any state, even with those rows fully occupied), the piece
count never changes, and the score increase is `1000` per complete *candidate*
row only. -/
theorem row_clear_skips_top_rows (a : App) (ha : a.score < W) :
    (∀ i ∈ rowClearCandidates, -90 ≤ ((10 * i : ℤ) : ℚ) ∧ ((10 * i : ℤ) : ℚ) ≤ 70) ∧
    a.row_clear.pieces.map
        (fun p => p.components.filter fun c => decide (c.y = 80) || decide (c.y = 90)) =
      a.pieces.map
        (fun p => p.components.filter fun c => decide (c.y = 80) || decide (c.y = 90)) ∧
    a.row_clear.score = (a.score + 1000 * (clearedRows a.pieces rowClearCandidates).length) % W ∧
    a.row_clear.pieces.length = a.pieces.length := by
  have hnd : rowClearCandidates.Nodup := by decide
  obtain ⟨hlen, hscore, hQ⟩ := rowClear_fold_weak rowClearCandidates a hnd
  have hall : ∀ j ∈ rowClearCandidates,
      ¬((10 * j : ℤ) : ℚ) = 80 ∧ ¬((10 * j : ℤ) : ℚ) = 90 := by decide
  refine ⟨by decide, ?_, hscore ha, hlen⟩
  refine hQ _ ?_
  intro c hc i hi
  simp only [Bool.or_eq_true, decide_eq_true_eq] at hc
  rcases hc with h80 | h90
  · rw [h80]; exact fun he => (hall i hi).1 he.symm
  · rw [h90]; exact fun he => (hall i hi).2 he.symm

/-- Claim C10, witness: a fully occupied row at `y = 80` is neither cleared nor
scored. -/
theorem row_clear_skips_top_rows_witness :
    appTop.score < W ∧ appTop.row_clear.score = 0 ∧
      appTop.row_clear.pieces.map
          (fun p => p.components.filter fun c => decide (c.y = 80) || decide (c.y = 90)) =
        appTop.pieces.map
          (fun p => p.components.filter fun c => decide (c.y = 80) || decide (c.y = 90)) := by
  have h := row_clear_skips_top_rows appTop (by decide)
  exact ⟨by decide, by rw [h.2.2.1]; decide, h.2.1⟩

/-! ## Claim C6 -/

/-- One `rotate` acts on every Block position as the same affine map: a 90°
rotation `(x, y) ↦ (-y, x)` followed by one common translation `v` (the
centroid shift and the grid snap). -/
theorem rotate_affine (p : Piece) :
    ∃ v : ℚ × ℚ,
      p.rotate.components.map (fun c => (c.x, c.y)) =
        (p.components.map fun c => (c.x, c.y)).map fun z => (-z.2 + v.1, z.1 + v.2) := by
  refine ⟨(p.center.2 + p.center.1 -
      round_to_tenths (get_min_x (p.components.map (rotate_spin p.center.1 p.center.2))),
    p.center.2 - p.center.1 -
      round_to_tenths (get_min_y (p.components.map (rotate_spin p.center.1 p.center.2)))), ?_⟩
  simp only [Piece.rotate, List.map_map]
  refine List.map_congr_left fun c _ => ?_
  simp only [Function.comp, rotate_snap, rotate_spin]
  rw [Prod.mk.injEq]
  constructor <;> ring

/-- Claim C6, amended: four successive `rotate()` calls return every Block to
its original position only *up to one common translation*: the four 90°
rotations compose to the identity, but the centroid/snap translations
accumulate, and the net translation is in general non-zero
(`rotate_four_not_identity`). -/
theorem rotate_four_is_translation (p : Piece) :
    ∃ t : ℚ × ℚ,
      p.rotate.rotate.rotate.rotate.components.map (fun c => (c.x, c.y)) =
        p.components.map fun c => (c.x + t.1, c.y + t.2) := by
  obtain ⟨v1, h1⟩ := rotate_affine p
  obtain ⟨v2, h2⟩ := rotate_affine p.rotate
  obtain ⟨v3, h3⟩ := rotate_affine p.rotate.rotate
  obtain ⟨v4, h4⟩ := rotate_affine p.rotate.rotate.rotate
  refine ⟨(v1.2 - v2.1 - v3.2 + v4.1, -v1.1 - v2.2 + v3.1 + v4.2), ?_⟩
  rw [h4, h3, h2, h1]
  simp only [List.map_map]
  refine List.map_congr_left fun c _ => ?_
  simp only [Function.comp]
  rw [Prod.mk.injEq]
  constructor <;> ring

/-- Claim C6, counterexample: the spawn I-piece (centroid cache synced, as
`next_piece` does) has every Block on the 10-unit lattice, yet four `rotate()`
calls return it translated one grid step down — Block positions do not return
to their originals. -/
theorem rotate_four_not_identity :
    OnLattice Piece.long.set_center ∧
      Piece.long.set_center.rotate.rotate.rotate.rotate.components.map (fun c => (c.x, c.y)) ≠
        Piece.long.set_center.components.map (fun c => (c.x, c.y)) := by
  have hs : Piece.long.set_center = longR0 := by
    norm_num [Piece.set_center, get_center, Piece.long, SimplePiece.new, longR0]
  constructor
  · intro c hc
    rw [hs] at hc
    simp only [longR0, List.mem_cons, List.not_mem_nil, or_false] at hc
    rcases hc with rfl | rfl | rfl | rfl
    · exact ⟨⟨0, by norm_num⟩, ⟨9, by norm_num⟩⟩
    · exact ⟨⟨0, by norm_num⟩, ⟨8, by norm_num⟩⟩
    · exact ⟨⟨0, by norm_num⟩, ⟨7, by norm_num⟩⟩
    · exact ⟨⟨0, by norm_num⟩, ⟨6, by norm_num⟩⟩
  · have t1 : Int.tdiv 75 10 = 7 := by decide
    have t2 : Int.tdiv (-5) 10 = 0 := by decide
    have t3 : Int.tdiv 15 10 = 1 := by decide
    have t4 : Int.tdiv (-15) 10 = -1 := by decide
    have t5 : Int.tdiv 55 10 = 5 := by decide
    have t6 : Int.tdiv 5 10 = 0 := by decide
    have h1 : longR0.rotate = longR1 := by
      norm_num [Piece.rotate, rotate_spin, rotate_snap, get_center, get_min_y, get_max_y,
        get_min_x, min_y_fold, max_y_fold, min_x_fold, round_to_tenths, round_away,
        longR0, longR1, t1, t2]
    have h2 : longR1.rotate = longR2 := by
      norm_num [Piece.rotate, rotate_spin, rotate_snap, get_center, get_min_y, get_max_y,
        get_min_x, min_y_fold, max_y_fold, min_x_fold, round_to_tenths, round_away,
        longR1, longR2, t1, t3]
    have h3 : longR2.rotate = longR3 := by
      norm_num [Piece.rotate, rotate_spin, rotate_snap, get_center, get_min_y, get_max_y,
        get_min_x, min_y_fold, max_y_fold, min_x_fold, round_to_tenths, round_away,
        longR2, longR3, t1, t4]
    have h4 : longR3.rotate = longR4 := by
      norm_num [Piece.rotate, rotate_spin, rotate_snap, get_center, get_min_y, get_max_y,
        get_min_x, min_y_fold, max_y_fold, min_x_fold, round_to_tenths, round_away,
        longR3, longR4, t5, t6]
    rw [hs, h1, h2, h3, h4]
    decide

end Tetris

